import Mathlib

/-!
Shallow embedding of `src/services/DataImporter.ts` of the
sequelize-typescript data importer.  The pure reconciliation logic — the
localized-info regex scan, the sub-operator derivation from station
identifiers, the translation-row extraction — is translated into
executable Lean functions; the persistence collaborator is modelled as an
abstract transactional store.
-/

/-- A charging-station feed record (`IEvseDataRecord`), restricted to the
fields the importer's reconciliation logic reads or writes.  Optional
feed fields are `Option String` (`none` = absent/undefined). -/
structure IEvseDataRecord where
  EvseId : String
  OperatorId : String
  ChargingStationName : Option String
  EnChargingStationName : Option String
  EnAdditionalInfo : Option String
  AdditionalInfo : Option String
deriving DecidableEq

/-- A translation row (`IEVSE_tr`) as built by `getEvseTr`. -/
structure IEVSE_tr where
  evseId : String
  chargingStationName : Option String
  languageCode : String
  additionalInfo : Option String
deriving DecidableEq

/-- An operator row (`IOperator`). -/
structure IOperator where
  id : String
  name : Option String
  parentId : Option String
deriving DecidableEq

/-- One per-operator block of the feed (`IOperatorEvseData`). -/
structure IOperatorEvseData where
  OperatorID : String
  OperatorName : String
  EvseDataRecord : List IEvseDataRecord
deriving DecidableEq

/-! ### The localized-info scan of `getInternationalData`

`LOCALIZED_INFO_REGEX = new RegExp('([A-Z]{3}):(.*?)\\|\\|\\|', 'g')` is
executed repeatedly over the packed `EnAdditionalInfo` field.  The scan
is modelled character-exactly: `[A-Z]` is the uppercase ASCII range,
JavaScript `.` (no `s` flag) matches everything except a line
terminator, and `(.*?)` is a lazy capture ended by the first `|||`. -/

/-- The character class `[A-Z]`. -/
def isUpperAlpha (c : Char) : Bool := 'A' ≤ c && c ≤ 'Z'

/-- JavaScript `.` (without the `s` flag): any character except a line
terminator (`\n`, `\r`, U+2028, U+2029). -/
def isJSDot (c : Char) : Bool :=
  !(c = '\n' || c = '\r' || c = ' ' || c = ' ')

/-- The fixed three-character delimiter `|||` of the packed field. -/
def tripleBar : List Char := ['|', '|', '|']

/-- The lazy tail `(.*?)\|\|\|` of the localized-info pattern: consume as
few `.`-characters as possible before the delimiter; returns the
captured text and the remaining input after the delimiter. -/
def lazyCapture : List Char → Option (List Char × List Char)
  | [] => none
  | c :: cs =>
    if tripleBar.isPrefixOf (c :: cs) then some ([], (c :: cs).drop 3)
    else if isJSDot c then (lazyCapture cs).map (fun p => (c :: p.1, p.2)) else none

/-- An attempt of `([A-Z]{3}):(.*?)\|\|\|` anchored at the head of the
input; returns the captured country code and the raw captured text. -/
def matchLocAt : List Char → Option (String × List Char)
  | c1 :: c2 :: c3 :: c4 :: rest =>
    if isUpperAlpha c1 && isUpperAlpha c2 && isUpperAlpha c3 && c4 = ':' then
      (lazyCapture rest).map (fun p => (String.mk [c1, c2, c3], p.1))
    else none
  | _ => none

/-- The leftmost match of the localized-info pattern: returns the code,
the raw captured text, and the offset just past the end of the match. -/
def findMatch : List Char → Option (String × List Char × Nat)
  | [] => none
  | c :: cs =>
    match matchLocAt (c :: cs) with
    | some (code, t) => some (code, t, 7 + t.length)
    | none => (findMatch cs).map (fun r => (r.1, r.2.1, r.2.2 + 1))

/-- `LOCALIZED_INFO_REGEX.exec(s)` with the `g` flag: search from
`lastIndex`; on success return the match and advance `lastIndex` just
past it, on failure return no match and reset `lastIndex` to `0`. -/
def execLocalized (s : List Char) (lastIndex : Nat) : Option (String × List Char) × Nat :=
  match findMatch (s.drop lastIndex) with
  | some (code, t, n) => (some (code, t), lastIndex + n)
  | none => (none, 0)

/-- The `while (match != null)` exec loop of `getInternationalData`, with
explicit fuel (each iteration advances `lastIndex` by at least 7, so
`s.length + 1` fuel always suffices); returns the matches in order
together with the regex's final `lastIndex`. -/
def scanLoopF (s : List Char) : Nat → Nat → List (String × List Char) × Nat
  | 0, lastIndex => ([], lastIndex)
  | fuel + 1, lastIndex =>
    match execLocalized s lastIndex with
    | (some m, li) =>
      let p := scanLoopF s fuel li
      (m :: p.1, p.2)
    | (none, li) => ([], li)

/-- One full exec loop over a packed field starting at the shared
regex's current `lastIndex`. -/
def execLoopScan (s : String) (lastIndex : Nat) : List (String × List Char) × Nat :=
  scanLoopF s.data (s.data.length + 1) lastIndex

/-- JavaScript `String.prototype.trim` whitespace. -/
def isJSSpace (c : Char) : Bool :=
  c = ' ' || c = '\t' || c = '\n' || c = '\r' || c = '\x0b' || c = '\x0c' ||
  c = ' ' || c = '﻿' || c = ' ' || c = ' '

/-- JavaScript `String.prototype.trim`. -/
def jsTrim (s : String) : String :=
  String.mk (((s.data.dropWhile isJSSpace).reverse.dropWhile isJSSpace).reverse)

/-- JavaScript truthiness of an optional string field combined with the
non-blank check, as in `data.EnChargingStationName &&
data.EnChargingStationName.trim()`. -/
def truthyNonBlank : Option String → Bool
  | none => false
  | some s => !s.isEmpty && !(jsTrim s).isEmpty

/-- A test of `CODE:.*\|\|\|` anchored at the head of the input:
the literal pattern head, then some run of `.`-characters followed by
the delimiter (greediness is irrelevant for a boolean test). -/
def dotsThenBars : List Char → Bool
  | [] => false
  | c :: cs => tripleBar.isPrefixOf (c :: cs) || (isJSDot c && dotsThenBars cs)

/-- A test of a literal pattern followed by `.*\|\|\|` anchored at the
head of the input. -/
def testPatternAt (pat cs : List Char) : Bool :=
  pat.isPrefixOf cs && dotsThenBars (cs.drop pat.length)

/-- An unanchored search of a literal pattern followed by `.*\|\|\|`. -/
def searchTest (pat : List Char) : List Char → Bool
  | [] => testPatternAt pat []
  | c :: cs => testPatternAt pat (c :: cs) || searchTest pat cs

/-- `new RegExp(anchor + ':.*\\|\\|\\|').test(s)`, the backfill guard of
`getInternationalData`. -/
def testAnchorRegex (anchor : String) (s : String) : Bool :=
  searchTest (anchor.data ++ [':']) s.data

/-! ### Translation-row construction (`getEvseTr`, `getInternationalData`)

The country-to-language collaborator
`DataImportHelper.getLanguageCodeByISO3166Alpha3` is external to the
importer; it is modelled as a parameter `lookup : String → Except String
String` (a rejected promise is `Except.error`). -/

/-- The anchor code whose segment carries `ChargingStationName`. -/
def CHARGING_STATION_NAME_ALPHA_3 : String := "DEU"

/-- The anchor code whose segment carries `EnChargingStationName`. -/
def EN_CHARGING_STATION_NAME_ALPHA_3 : String := "GBR"

/-- Country-code-to-language resolution with the `.catch` fallback of
`getEvseTr`: if the lookup fails, the alpha-3 code itself is used as the
language code. -/
def getLanguageCodeWithFallback (lookup : String → Except String String) (alpha3 : String) :
    String :=
  match lookup alpha3 with
  | Except.ok code => code
  | Except.error _ => alpha3

/-- `getEvseTr`: builds one translation row; a failing lookup is caught
and the raw alpha-3 code substituted, so a row is always produced. -/
def getEvseTr (lookup : String → Except String String) (alpha3 : String) (evseId : String)
    (chargingStationName : Option String) (additionalInfo : Option String) : IEVSE_tr :=
  { evseId := evseId, chargingStationName := chargingStationName,
    languageCode := getLanguageCodeWithFallback lookup alpha3,
    additionalInfo := additionalInfo }

/-- Selection of the `chargingStationName` for a scanned segment by its
country code (`GBR` → `EnChargingStationName`, `DEU` →
`ChargingStationName`, anything else → null), as in the `if`/`else if`
of the exec loop. -/
def scannedName (d : IEvseDataRecord) (alpha3 : String) : Option String :=
  if alpha3 = EN_CHARGING_STATION_NAME_ALPHA_3 then d.EnChargingStationName
  else if alpha3 = CHARGING_STATION_NAME_ALPHA_3 then d.ChargingStationName
  else none

/-- The body of the `evseData.forEach` of `getInternationalData` for one
record: the `if (!data.EnAdditionalInfo) return` guard, the exec-loop
scan of the packed field (each captured text trimmed), then the `GBR`
and `DEU` backfill rows; the shared regex's `lastIndex` is threaded
through. -/
def stationTrRows (lookup : String → Except String String) (lastIndex : Nat)
    (d : IEvseDataRecord) : List IEVSE_tr × Nat :=
  match d.EnAdditionalInfo with
  | none => ([], lastIndex)
  | some info =>
    if info.isEmpty then ([], lastIndex)
    else
      let scanned := execLoopScan info lastIndex
      let scannedRows := scanned.1.map (fun m =>
        getEvseTr lookup m.1 d.EvseId (scannedName d m.1) (some (jsTrim (String.mk m.2))))
      let gbrBackfill :=
        if !testAnchorRegex EN_CHARGING_STATION_NAME_ALPHA_3 info &&
            truthyNonBlank d.EnChargingStationName then
          [getEvseTr lookup EN_CHARGING_STATION_NAME_ALPHA_3 d.EvseId d.EnChargingStationName none]
        else []
      let deuBackfill :=
        if !testAnchorRegex CHARGING_STATION_NAME_ALPHA_3 info &&
            truthyNonBlank d.ChargingStationName then
          [getEvseTr lookup CHARGING_STATION_NAME_ALPHA_3 d.EvseId d.ChargingStationName none]
        else []
      (scannedRows ++ gbrBackfill ++ deuBackfill, scanned.2)

/-- The `forEach` over all records, threading the shared
`LOCALIZED_INFO_REGEX.lastIndex` from record to record exactly as the
single regex object of `getInternationalData` does. -/
def getInternationalDataAux (lookup : String → Except String String) (lastIndex : Nat) :
    List IEvseDataRecord → List IEVSE_tr × Nat
  | [] => ([], lastIndex)
  | d :: ds =>
    let p := stationTrRows lookup lastIndex d
    let q := getInternationalDataAux lookup p.2 ds
    (p.1 ++ q.1, q.2)

/-- `getInternationalData`: a fresh `g`-flagged regex (`lastIndex = 0`)
scans every record's packed field; rows are produced in push order. -/
def getInternationalData (lookup : String → Except String String)
    (evseData : List IEvseDataRecord) : List IEVSE_tr :=
  (getInternationalDataAux lookup 0 evseData).1

/-- A lookup collaborator that always fails; under the `.catch` fallback
it resolves every alpha-3 code to itself. -/
def constErrLookup : String → Except String String := fun _ => Except.error "unavailable"

/-! ### Sub-operator derivation (`processPossibleSubOperatorsFromEvseData`)

`OPERATOR_ID_REGEX = /([A-Za-z]{2}\*?[A-Za-z0-9]{3})|(\+?[0-9]{1,3}\*[0-9]{3})/`
(no `g` flag).  `exec` returns the leftmost match, trying the first
alternative before the second at each position; `match[0]` is the full
matched text.  `exec(...)` is `null` when nothing matches, and indexing
`null` with `[0]` throws — modelled as `none` propagating out of the
station phase. -/

/-- The character class `[A-Za-z]`. -/
def isAsciiLetter (c : Char) : Bool :=
  ('A' ≤ c && c ≤ 'Z') || ('a' ≤ c && c ≤ 'z')

/-- The character class `[A-Za-z0-9]`. -/
def isAlnum (c : Char) : Bool := isAsciiLetter c || ('0' ≤ c && c ≤ '9')

/-- The character class `[0-9]`. -/
def isDigitChar (c : Char) : Bool := '0' ≤ c && c ≤ '9'

/-- The first alternative `[A-Za-z]{2}\*?[A-Za-z0-9]{3}` anchored at the
head of the input (greedy `\*?` with its backtracking: when a `*`
follows the two letters but no three alphanumerics follow it, the
star-less branch needs `*` to be alphanumeric, which fails). -/
def matchOperatorAlt1 : List Char → Option (List Char)
  | c1 :: c2 :: '*' :: d1 :: d2 :: d3 :: _ =>
    if isAsciiLetter c1 && isAsciiLetter c2 && isAlnum d1 && isAlnum d2 && isAlnum d3 then
      some [c1, c2, '*', d1, d2, d3]
    else none
  | c1 :: c2 :: d1 :: d2 :: d3 :: _ =>
    if isAsciiLetter c1 && isAsciiLetter c2 && isAlnum d1 && isAlnum d2 && isAlnum d3 then
      some [c1, c2, d1, d2, d3]
    else none
  | _ => none

/-- The tail `\*[0-9]{3}` of the second alternative anchored at the head
of the input. -/
def matchStarDigits3 : List Char → Option (List Char)
  | '*' :: e1 :: e2 :: e3 :: _ =>
    if isDigitChar e1 && isDigitChar e2 && isDigitChar e3 then some ['*', e1, e2, e3]
    else none
  | _ => none

/-- The second alternative `\+?[0-9]{1,3}\*[0-9]{3}` anchored at the head
of the input; the greedy `[0-9]{1,3}` tries three, two, then one digit
(and a consumed `+` cannot be given back usefully, since `+` is not a
digit). -/
def matchOperatorAlt2 (cs : List Char) : Option (List Char) :=
  let core : List Char → Option (List Char) := fun cs =>
    (match cs with
     | d1 :: d2 :: d3 :: rest =>
       if isDigitChar d1 && isDigitChar d2 && isDigitChar d3 then
         (matchStarDigits3 rest).map (fun m => d1 :: d2 :: d3 :: m)
       else none
     | _ => none) <|>
    (match cs with
     | d1 :: d2 :: rest =>
       if isDigitChar d1 && isDigitChar d2 then
         (matchStarDigits3 rest).map (fun m => d1 :: d2 :: m)
       else none
     | _ => none) <|>
    (match cs with
     | d1 :: rest =>
       if isDigitChar d1 then (matchStarDigits3 rest).map (fun m => d1 :: m) else none
     | _ => none)
  match cs with
  | '+' :: rest => (core rest).map (fun m => '+' :: m)
  | _ => core cs

/-- `OPERATOR_ID_REGEX.exec(evseId)[0]`: the full text of the leftmost
match, the first alternative tried before the second at each position;
`none` when the identifier does not match at all. -/
def operatorIdFirstMatch : List Char → Option String
  | [] => ((matchOperatorAlt1 []).orElse (fun _ => matchOperatorAlt2 [])).map String.mk
  | c :: cs =>
    match ((matchOperatorAlt1 (c :: cs)).orElse (fun _ => matchOperatorAlt2 (c :: cs))).map
        String.mk with
    | some r => some r
    | none => operatorIdFirstMatch cs

/-- The body of the `evseData.forEach` of
`processPossibleSubOperatorsFromEvseData` for one record: compute the
candidate operator id from the station identifier (`none` models the
thrown `TypeError` when the pattern does not match); when it differs
from the record's operator id, emit a sub-operator row and overwrite the
record's `OperatorId`. -/
def subOperatorStep (d : IEvseDataRecord) : Option (List IOperator × IEvseDataRecord) :=
  match operatorIdFirstMatch d.EvseId.data with
  | none => none
  | some cand =>
    if d.OperatorId ≠ cand then
      some ([{ id := cand, name := none, parentId := some d.OperatorId }],
        { d with OperatorId := cand })
    else some ([], d)

/-- `processPossibleSubOperatorsFromEvseData`: the forEach over all
records, collecting the pushed sub-operator rows (later handed to
`trx('Operator').insertOrUpdate`) and the in-place adjusted records;
`none` when some identifier does not match the pattern. -/
def processPossibleSubOperatorsFromEvseData :
    List IEvseDataRecord → Option (List IOperator × List IEvseDataRecord)
  | [] => some ([], [])
  | d :: ds =>
    match subOperatorStep d with
    | none => none
    | some (ops, d') =>
      match processPossibleSubOperatorsFromEvseData ds with
      | none => none
      | some (opsRest, ds') => some (ops ++ opsRest, d' :: ds')

/-- `mapOperatorDataToOperators`: the top-level operator rows mapped
directly from the feed. -/
def mapOperatorDataToOperators (operatorData : List IOperatorEvseData) : List IOperator :=
  operatorData.map (fun data =>
    { id := data.OperatorID, name := some data.OperatorName, parentId := none })

/-- Modelled from the spec: `DataImportHelper.getArrayByValue_Array` is
not under `src`; per spec §6 each feed operator carries a list of
station records, so on that list the normalizer is the identity. -/
def getArrayByValue_Array (records : List IEvseDataRecord) : List IEvseDataRecord := records

/-- `retrieveEvseDataFromOperatorData`: flattens the per-operator station
lists, stamping each record's `OperatorId` with its block's
`OperatorID`. -/
def retrieveEvseDataFromOperatorData (operatorData : List IOperatorEvseData) :
    List IEvseDataRecord :=
  operatorData.flatMap (fun od =>
    (getArrayByValue_Array od.EvseDataRecord).map (fun d => { d with OperatorId := od.OperatorID }))

/-! ### Transactional orchestration (`processOperatorData`, `processEvseData`, `execute`) -/

/-- Modelled from the spec: the persistence collaborator
(`../bookshelf`/knex, not under `src`) groups a sequence of per-table
operations into one atomic transaction (spec §6): the body is applied as
a whole, and when it fails the store is left exactly as it was at
transaction start and the error is reported to the caller. -/
def runTransaction {α : Type} (body : α → Except String α) (store : α) : α × Option String :=
  match body store with
  | Except.ok s => (s, none)
  | Except.error e => (store, some e)

/-- The step chain of `processEvseData` inside its single transaction:
clear the EVSE data, insert the derived sub-operators, insert the mapped
EVSEs, insert the translation rows, insert the enum-relation rows. -/
def stationPhase {α : Type}
    (clearData subOps insertEvses insertTrs insertRels : α → Except String α) (st : α) :
    Except String α :=
  clearData st >>= subOps >>= insertEvses >>= insertTrs >>= insertRels

/-- `processEvseData`: the whole station phase runs inside one
`bookshelf.knex.transaction`. -/
def processEvseData {α : Type}
    (clearData subOps insertEvses insertTrs insertRels : α → Except String α) (st : α) :
    α × Option String :=
  runTransaction (stationPhase clearData subOps insertEvses insertTrs insertRels) st

/-- The body of `processOperatorData`'s transaction: delete all Operator
rows, then insert-or-update the mapped top-level operators. -/
def operatorPhase {α : Type} (deleteOperators insertOperators : α → Except String α)
    (st : α) : Except String α :=
  deleteOperators st >>= insertOperators

/-- `execute`: the operator phase runs first in its own transaction, then
the station phase runs; a rejected phase stops the chain. -/
def execute {α : Type}
    (deleteOperators insertOperators clearData subOps insertEvses insertTrs insertRels :
      α → Except String α) (st : α) : α × Option String :=
  match runTransaction (operatorPhase deleteOperators insertOperators) st with
  | (st1, none) => processEvseData clearData subOps insertEvses insertTrs insertRels st1
  | (st1, some e) => (st1, some e)

/-- A station with no packed field but a non-blank alternate name: the
claimed backfill row does not exist, because `getInternationalData`
returns from the forEach body before the backfill checks whenever
`EnAdditionalInfo` is falsy. -/
def c2Station : IEvseDataRecord :=
  { EvseId := "E1", OperatorId := "OP", ChargingStationName := none,
    EnChargingStationName := some "StationName-EN", EnAdditionalInfo := none,
    AdditionalInfo := none }

/-- The spec's two concrete operator-resolution examples. -/
def stationTBB : IEvseDataRecord :=
  { EvseId := "DE*TBB*E5678", OperatorId := "DE*TBA", ChargingStationName := none,
    EnChargingStationName := none, EnAdditionalInfo := none, AdditionalInfo := none }

def stationTBA : IEvseDataRecord :=
  { EvseId := "DE*TBA*E1234", OperatorId := "DE*TBA", ChargingStationName := none,
    EnChargingStationName := none, EnAdditionalInfo := none, AdditionalInfo := none }

def malformedStation : IEvseDataRecord :=
  { EvseId := "", OperatorId := "OP", ChargingStationName := none,
    EnChargingStationName := none, EnAdditionalInfo := none, AdditionalInfo := none }

/-- The projection of a feed record onto every modelled field except
`OperatorId`. -/
def stationFrame (d : IEvseDataRecord) :
    String × Option String × Option String × Option String × Option String :=
  (d.EvseId, d.ChargingStationName, d.EnChargingStationName, d.EnAdditionalInfo,
    d.AdditionalInfo)

/-- The feed block of the spec's concrete operator example. -/
def operatorBlockTBA : IOperatorEvseData :=
  { OperatorID := "DE*TBA", OperatorName := "TBA Operator",
    EvseDataRecord := [stationTBA, stationTBB] }

/-! ### Translation-row keys (claim C6) -/

/-- The key the spec declares unique per translation row. -/
def trKey (r : IEVSE_tr) : String × String := (r.evseId, r.languageCode)

/-- The country codes of the segments scanned from a packed field by a
fresh exec loop. -/
def scanCodes (s : String) : List String := (execLoopScan s 0).1.map Prod.fst

/-- The country codes of all rows produced for one record: the scanned
codes followed by the backfilled anchor codes. -/
def stationCodes (d : IEvseDataRecord) : List String :=
  match d.EnAdditionalInfo with
  | none => []
  | some info =>
    if info.isEmpty then []
    else
      scanCodes info ++
      (if !testAnchorRegex EN_CHARGING_STATION_NAME_ALPHA_3 info &&
          truthyNonBlank d.EnChargingStationName then [EN_CHARGING_STATION_NAME_ALPHA_3]
        else []) ++
      (if !testAnchorRegex CHARGING_STATION_NAME_ALPHA_3 info &&
          truthyNonBlank d.ChargingStationName then [CHARGING_STATION_NAME_ALPHA_3]
        else [])

/-- A station whose packed field repeats the `FRA` code: extraction emits
two rows whose keys (stationId, languageCode) coincide, refuting the
claimed uniqueness. -/
def c6Station : IEvseDataRecord :=
  { EvseId := "E1", OperatorId := "OP", ChargingStationName := none,
    EnChargingStationName := none, EnAdditionalInfo := some "FRA:a|||FRA:b|||",
    AdditionalInfo := none }

/-! ### Claim theorems -/

/-- C1: for a station whose packed field is exactly
`"DEU:Inhalt|||GBR:Content|||FRA:Objet|||"`, with primary name
`"StationName-DE"` and alternate name `"StationName-EN"`, extraction
produces exactly three translation rows: the `DEU` row with
`chargingStationName = "StationName-DE"`, the `GBR` row with
`chargingStationName = "StationName-EN"`, the `FRA` row with a null
`chargingStationName`; each row's `additionalInfo` is the trimmed
captured text of its segment, and each row's language code is the
lookup of its country code (with the fallback). -/
theorem C1_packed_field_three_rows (lookup : String → Except String String)
    (id opId : String) (addInfo : Option String) :
    stationTrRows lookup 0
      { EvseId := id, OperatorId := opId, ChargingStationName := some "StationName-DE",
        EnChargingStationName := some "StationName-EN",
        EnAdditionalInfo := some "DEU:Inhalt|||GBR:Content|||FRA:Objet|||",
        AdditionalInfo := addInfo } =
    ([{ evseId := id, chargingStationName := some "StationName-DE",
        languageCode := getLanguageCodeWithFallback lookup "DEU",
        additionalInfo := some "Inhalt" },
      { evseId := id, chargingStationName := some "StationName-EN",
        languageCode := getLanguageCodeWithFallback lookup "GBR",
        additionalInfo := some "Content" },
      { evseId := id, chargingStationName := none,
        languageCode := getLanguageCodeWithFallback lookup "FRA",
        additionalInfo := some "Objet" }], 0) := by
  rfl

/-- C7: when the country-to-language lookup fails, the translation row is
still produced, with the raw alpha-3 code substituted as its language
code; nothing else of the row changes. -/
theorem C7_lookup_failure_fallback (lookup : String → Except String String)
    (alpha3 evseId : String) (name info : Option String) (e : String)
    (h : lookup alpha3 = Except.error e) :
    getEvseTr lookup alpha3 evseId name info =
      { evseId := evseId, chargingStationName := name, languageCode := alpha3,
        additionalInfo := info } := by
  simp [getEvseTr, getLanguageCodeWithFallback, h]

theorem C7_lookup_failure_fallback_witness :
    getEvseTr constErrLookup "GBR" "E1" none none =
      { evseId := "E1", chargingStationName := none, languageCode := "GBR",
        additionalInfo := none } :=
  C7_lookup_failure_fallback constErrLookup "GBR" "E1" none none "unavailable" rfl

/-- C8: the station phase runs inside a single transaction: if any of its
steps fails after the clear, the whole phase is rolled back, the store
is left exactly as it was when the phase started (that is, with the
operator phase's writes retained), and the operator phase is not
re-run. -/
theorem C8_station_phase_rollback {α : Type}
    (deleteOperators insertOperators clearData subOps insertEvses insertTrs insertRels :
      α → Except String α) (st0 st1 : α) (e : String)
    (hop : operatorPhase deleteOperators insertOperators st0 = Except.ok st1)
    (hfail : stationPhase clearData subOps insertEvses insertTrs insertRels st1 =
      Except.error e) :
    execute deleteOperators insertOperators clearData subOps insertEvses insertTrs insertRels
      st0 = (st1, some e) := by
  simp [execute, runTransaction, processEvseData, hop, hfail]

theorem C8_station_phase_rollback_witness :
    execute (fun _ => Except.ok []) (fun s => Except.ok ("op" :: s))
      (fun _ => Except.ok []) (fun _ => Except.error "boom")
      Except.ok Except.ok Except.ok (["old"] : List String) = (["op"], some "boom") :=
  C8_station_phase_rollback _ _ _ _ _ _ _ ["old"] ["op"] "boom" rfl rfl

theorem C2_counterexample :
    c2Station.EnAdditionalInfo = none ∧
      truthyNonBlank c2Station.EnChargingStationName = true ∧
      getInternationalData constErrLookup [c2Station] = [] := by
  decide

/-- C2 (amended): a station whose packed additional-info field is absent
produces no translation rows at all — no scanned rows and, contrary to
the original claim, no backfill rows either, whatever the name fields
are; the shared regex state is also left untouched. -/
theorem C2_absent_packed_no_rows (lookup : String → Except String String) (lastIndex : Nat)
    (d : IEvseDataRecord) (h : d.EnAdditionalInfo = none) :
    stationTrRows lookup lastIndex d = ([], lastIndex) := by
  simp [stationTrRows, h]

theorem C2_absent_packed_no_rows_witness :
    stationTrRows constErrLookup 0 c2Station = ([], 0) :=
  C2_absent_packed_no_rows constErrLookup 0 c2Station rfl

/-- C3: for a station whose identifier matches the operator-id pattern,
with candidate the first match: if the candidate equals the nominal
operator id, no Operator row is emitted and the record is unchanged;
otherwise the row `{id: candidate, name: null, parentId: nominal}` is
emitted and the record's `OperatorId` is overwritten with the
candidate. -/
theorem C3_sub_operator_resolution (d : IEvseDataRecord) (cand : String)
    (h : operatorIdFirstMatch d.EvseId.data = some cand) :
    (cand = d.OperatorId → subOperatorStep d = some ([], d)) ∧
    (cand ≠ d.OperatorId →
      subOperatorStep d =
        some ([{ id := cand, name := none, parentId := some d.OperatorId }],
          { d with OperatorId := cand })) := by
  constructor
  · intro he
    simp [subOperatorStep, h, he.symm]
  · intro hne
    simp [subOperatorStep, h, Ne.symm hne]

theorem C3_sub_operator_resolution_witness :
    subOperatorStep stationTBB =
      some ([{ id := "DE*TBB", name := none, parentId := some "DE*TBA" }],
        { stationTBB with OperatorId := "DE*TBB" }) ∧
    subOperatorStep stationTBA = some ([], stationTBA) :=
  ⟨(C3_sub_operator_resolution stationTBB "DE*TBB" (by decide)).2 (by decide),
   (C3_sub_operator_resolution stationTBA "DE*TBA" (by decide)).1 rfl⟩

/-- C4: a batch containing a station whose identifier does not match the
operator-id pattern at all makes sub-operator processing fail (the
`exec(...)[0]` on a null match throws, modelled by `none`), rather than
being skipped or defaulted. -/
theorem C4_malformed_identifier_fatal (evseData : List IEvseDataRecord)
    (h : ∃ d ∈ evseData, operatorIdFirstMatch d.EvseId.data = none) :
    processPossibleSubOperatorsFromEvseData evseData = none := by
  induction evseData with
  | nil => simp at h
  | cons a l ih =>
    rcases h with ⟨d, hd, hnone⟩
    rcases List.mem_cons.mp hd with rfl | hmem
    · simp [processPossibleSubOperatorsFromEvseData, subOperatorStep, hnone]
    · have hrec := ih ⟨d, hmem, hnone⟩
      cases hsa : subOperatorStep a with
      | none => simp [processPossibleSubOperatorsFromEvseData, hsa]
      | some p => simp [processPossibleSubOperatorsFromEvseData, hsa, hrec]

theorem C4_malformed_identifier_fatal_witness :
    processPossibleSubOperatorsFromEvseData [malformedStation] = none :=
  C4_malformed_identifier_fatal [malformedStation] ⟨malformedStation, by decide, by decide⟩

theorem subOperatorStep_frame {d : IEvseDataRecord} {ops : List IOperator}
    {d' : IEvseDataRecord} (h : subOperatorStep d = some (ops, d')) :
    stationFrame d' = stationFrame d := by
  rcases hm : operatorIdFirstMatch d.EvseId.data with _ | cand
  · simp [subOperatorStep, hm] at h
  · by_cases hne : d.OperatorId ≠ cand
    · simp [subOperatorStep, hm, hne] at h
      rw [← h.2]
      rfl
    · simp [subOperatorStep, hm, hne] at h
      rw [← h.2]

/-- C10: sub-operator resolution rewrites the station records in place
and only in the `OperatorId` field: on success the list's length and
order are preserved and every other field of every record is
unchanged. -/
theorem C10_sub_operator_frame (evseData : List IEvseDataRecord) (subOps : List IOperator)
    (resolved : List IEvseDataRecord)
    (h : processPossibleSubOperatorsFromEvseData evseData = some (subOps, resolved)) :
    resolved.length = evseData.length ∧
      resolved.map stationFrame = evseData.map stationFrame := by
  induction evseData generalizing subOps resolved with
  | nil =>
    simp [processPossibleSubOperatorsFromEvseData] at h
    simp [h.2.symm]
  | cons a l ih =>
    cases hsa : subOperatorStep a with
    | none => simp [processPossibleSubOperatorsFromEvseData, hsa] at h
    | some p =>
      cases hrec : processPossibleSubOperatorsFromEvseData l with
      | none => simp [processPossibleSubOperatorsFromEvseData, hsa, hrec] at h
      | some q =>
        obtain ⟨ops, d'⟩ := p
        obtain ⟨opsRest, ds'⟩ := q
        simp [processPossibleSubOperatorsFromEvseData, hsa, hrec] at h
        obtain ⟨-, hres⟩ := h
        obtain ⟨hlen, hmap⟩ := ih opsRest ds' hrec
        subst hres
        refine ⟨by simp [hlen], ?_⟩
        simp [hmap, subOperatorStep_frame hsa]

theorem C10_sub_operator_frame_witness :
    ([{ stationTBB with OperatorId := "DE*TBB" }] : List IEvseDataRecord).map stationFrame =
      [stationTBB].map stationFrame :=
  (C10_sub_operator_frame [stationTBB]
    [{ id := "DE*TBB", name := none, parentId := some "DE*TBA" }]
    [{ stationTBB with OperatorId := "DE*TBB" }] (by decide)).2

/-! ### Structure of the lazy capture and the exec state -/

theorem lazyCapture_eq_append {cs t r : List Char} (h : lazyCapture cs = some (t, r)) :
    cs = t ++ tripleBar ++ r := by
  induction cs generalizing t r with
  | nil => simp [lazyCapture] at h
  | cons c cs ih =>
    by_cases hp : tripleBar.isPrefixOf (c :: cs)
    · obtain ⟨u, hu⟩ := List.isPrefixOf_iff_prefix.mp hp
      simp only [lazyCapture, if_pos hp, Option.some.injEq, Prod.mk.injEq] at h
      obtain ⟨ht, hr⟩ := h
      subst ht
      subst hr
      rw [← hu]
      simp [tripleBar]
    · have hd : isJSDot c = true := by
        by_contra hdot
        simp only [Bool.not_eq_true] at hdot
        simp [lazyCapture, hp, hdot] at h
      rw [show lazyCapture (c :: cs) = (lazyCapture cs).map (fun p => (c :: p.1, p.2)) by
        simp [lazyCapture, hp, hd]] at h
      rcases hlc : lazyCapture cs with _ | ⟨t', r'⟩
      · rw [hlc] at h; cases h
      · rw [hlc] at h
        simp only [Option.map, Option.some.injEq, Prod.mk.injEq] at h
        obtain ⟨ht, hr⟩ := h
        subst ht
        subst hr
        rw [List.cons_append, List.cons_append, ih hlc]

theorem lazyCapture_dotsThenBars {cs t r : List Char} (h : lazyCapture cs = some (t, r)) :
    dotsThenBars cs = true := by
  induction cs generalizing t r with
  | nil => simp [lazyCapture] at h
  | cons c cs ih =>
    by_cases hp : tripleBar.isPrefixOf (c :: cs)
    · simp [dotsThenBars, hp]
    · have hd : isJSDot c = true := by
        by_contra hdot
        simp only [Bool.not_eq_true] at hdot
        simp [lazyCapture, hp, hdot] at h
      rw [show lazyCapture (c :: cs) = (lazyCapture cs).map (fun p => (c :: p.1, p.2)) by
        simp [lazyCapture, hp, hd]] at h
      rcases hlc : lazyCapture cs with _ | ⟨t', r'⟩
      · rw [hlc] at h; cases h
      · simp [dotsThenBars, hd, ih hlc]

theorem matchLocAt_inv {cs : List Char} {code : String} {t : List Char}
    (h : matchLocAt cs = some (code, t)) :
    ∃ c1 c2 c3 rest r, cs = c1 :: c2 :: c3 :: ':' :: rest ∧
      isUpperAlpha c1 = true ∧ isUpperAlpha c2 = true ∧ isUpperAlpha c3 = true ∧
      code = String.mk [c1, c2, c3] ∧ lazyCapture rest = some (t, r) := by
  rcases cs with _ | ⟨c1, _ | ⟨c2, _ | ⟨c3, _ | ⟨c4, rest⟩⟩⟩⟩ <;>
    simp only [matchLocAt] at h
  case cons.cons.cons.cons =>
    split_ifs at h with hg
    · simp only [Bool.and_eq_true, decide_eq_true_eq] at hg
      obtain ⟨⟨⟨h1, h2⟩, h3⟩, h4⟩ := hg
      subst h4
      rcases hlc : lazyCapture rest with _ | ⟨t', r'⟩
      · rw [hlc] at h; cases h
      · rw [hlc] at h
        simp only [Option.map, Option.some.injEq, Prod.mk.injEq] at h
        obtain ⟨hc, ht⟩ := h
        subst ht
        exact ⟨c1, c2, c3, rest, r', rfl, h1, h2, h3, hc.symm, hlc⟩
  all_goals cases h

theorem matchLocAt_length {cs : List Char} {code : String} {t : List Char}
    (h : matchLocAt cs = some (code, t)) : 7 + t.length ≤ cs.length := by
  obtain ⟨c1, c2, c3, rest, r, rfl, -, -, -, -, hlc⟩ := matchLocAt_inv h
  have hr := lazyCapture_eq_append hlc
  subst hr
  simp [tripleBar]
  omega

theorem findMatch_inv {cs : List Char} {code : String} {t : List Char} {n : Nat}
    (h : findMatch cs = some (code, t, n)) :
    7 + t.length ≤ n ∧ n ≤ cs.length ∧
      ∃ cs', cs' <:+ cs ∧ matchLocAt cs' = some (code, t) := by
  induction cs generalizing n with
  | nil => simp [findMatch] at h
  | cons c cs ih =>
    rcases hm : matchLocAt (c :: cs) with _ | ⟨code', t'⟩ <;>
      simp only [findMatch, hm] at h
    · rcases hf : findMatch cs with _ | ⟨code'', t'', n''⟩ <;> rw [hf] at h
      · cases h
      · simp only [Option.map, Option.some.injEq, Prod.mk.injEq] at h
        obtain ⟨rfl, rfl, rfl⟩ := h
        obtain ⟨hb1, hb2, cs', hsuf, hmat⟩ := ih hf
        exact ⟨by omega, by simp; omega,
          cs', hsuf.trans (List.suffix_cons c cs), hmat⟩
    · simp only [Option.some.injEq, Prod.mk.injEq] at h
      obtain ⟨rfl, rfl, rfl⟩ := h
      exact ⟨le_refl _, matchLocAt_length hm, c :: cs, List.suffix_refl _, hm⟩

theorem execLocalized_none_snd {s : List Char} {lastIndex li : Nat}
    (h : execLocalized s lastIndex = (none, li)) : li = 0 := by
  rcases hf : findMatch (s.drop lastIndex) with _ | ⟨code, t, n⟩ <;>
    simp only [execLocalized, hf, Prod.mk.injEq] at h
  · exact h.2.symm
  · simp at h

theorem execLocalized_some_bounds {s : List Char} {lastIndex li : Nat}
    {m : String × List Char} (h : execLocalized s lastIndex = (some m, li)) :
    lastIndex + 7 ≤ li ∧ li ≤ s.length := by
  rcases hf : findMatch (s.drop lastIndex) with _ | ⟨code, t, n⟩ <;>
    simp only [execLocalized, hf, Prod.mk.injEq] at h
  · simp at h
  · obtain ⟨h7, hn, -⟩ := findMatch_inv hf
    obtain ⟨-, rfl⟩ := h
    have hdl := List.length_drop lastIndex s
    omega

theorem scanLoopF_snd {s : List Char} {fuel lastIndex : Nat} (h1 : 1 ≤ fuel)
    (h2 : s.length + 1 ≤ fuel + lastIndex) : (scanLoopF s fuel lastIndex).2 = 0 := by
  induction fuel generalizing lastIndex with
  | zero => omega
  | succ fuel ih =>
    rcases hex : execLocalized s lastIndex with ⟨_ | m, li⟩
    · simp only [scanLoopF, hex]
      exact execLocalized_none_snd hex
    · obtain ⟨h7, hlen⟩ := execLocalized_some_bounds hex
      simp only [scanLoopF, hex]
      exact ih (by omega) (by omega)

theorem stationTrRows_snd (lookup : String → Except String String) (d : IEvseDataRecord) :
    (stationTrRows lookup 0 d).2 = 0 := by
  rcases hinfo : d.EnAdditionalInfo with _ | info
  · simp [stationTrRows, hinfo]
  · by_cases hempty : info.isEmpty
    · simp [stationTrRows, hinfo, hempty]
    · simp only [stationTrRows, hinfo, hempty, Bool.false_eq_true, if_false]
      exact scanLoopF_snd (by omega) (by omega)

theorem getInternationalDataAux_zero (lookup : String → Except String String)
    (evseData : List IEvseDataRecord) :
    getInternationalDataAux lookup 0 evseData =
      (evseData.flatMap (fun d => (stationTrRows lookup 0 d).1), 0) := by
  induction evseData with
  | nil => rfl
  | cons d ds ih =>
    simp only [getInternationalDataAux, stationTrRows_snd, ih, List.flatMap_cons]

/-- C5: localization extraction is deterministic and idempotent.  The
exec loop of one record always leaves the shared regex's `lastIndex` at
0, so the rows of each record are independent of the preceding records,
a run over the input twice produces each run's rows twice, and re-running
the whole extraction with whatever state the first run left behind
reproduces the first run's rows exactly. -/
theorem C5_extraction_idempotent (lookup : String → Except String String)
    (evseData : List IEvseDataRecord) :
    (getInternationalDataAux lookup (getInternationalDataAux lookup 0 evseData).2
        evseData).1 = getInternationalData lookup evseData ∧
      (getInternationalDataAux lookup 0 (evseData ++ evseData)).1 =
        getInternationalData lookup evseData ++ getInternationalData lookup evseData := by
  constructor
  · rw [getInternationalDataAux_zero]
    rfl
  · rw [getInternationalData, getInternationalDataAux_zero, getInternationalDataAux_zero]
    simp [List.flatMap_append]

/-! ### Operator-id provenance (claim C9) -/

theorem processSubOps_operatorId {evseData : List IEvseDataRecord} {subs : List IOperator}
    {res : List IEvseDataRecord}
    (h : processPossibleSubOperatorsFromEvseData evseData = some (subs, res)) :
    ∀ s ∈ res,
      (∃ d ∈ evseData, s.OperatorId = d.OperatorId) ∨ s.OperatorId ∈ subs.map IOperator.id := by
  induction evseData generalizing subs res with
  | nil =>
    simp only [processPossibleSubOperatorsFromEvseData, Option.some.injEq, Prod.mk.injEq] at h
    obtain ⟨rfl, rfl⟩ := h.symm
    simp
  | cons a l ih =>
    cases hsa : subOperatorStep a with
    | none => simp [processPossibleSubOperatorsFromEvseData, hsa] at h
    | some p =>
      cases hrec : processPossibleSubOperatorsFromEvseData l with
      | none => simp [processPossibleSubOperatorsFromEvseData, hsa, hrec] at h
      | some q =>
        obtain ⟨ops, a'⟩ := p
        obtain ⟨opsRest, ds'⟩ := q
        simp only [processPossibleSubOperatorsFromEvseData, hsa, hrec, Option.some.injEq,
          Prod.mk.injEq] at h
        obtain ⟨hsubs, hres⟩ := h
        subst hsubs
        subst hres
        intro s hs
        rcases List.mem_cons.mp hs with rfl | hmem
        · rcases hM : operatorIdFirstMatch a.EvseId.data with _ | cand
          · simp [subOperatorStep, hM] at hsa
          · by_cases hne : a.OperatorId ≠ cand
            · simp only [subOperatorStep, hM, if_pos hne, Option.some.injEq,
                Prod.mk.injEq] at hsa
              obtain ⟨hops, ha'⟩ := hsa
              subst hops
              subst ha'
              right
              simp
            · simp only [subOperatorStep, hM, if_neg hne, Option.some.injEq,
                Prod.mk.injEq] at hsa
              obtain ⟨hops, ha'⟩ := hsa
              subst hops
              subst ha'
              left
              exact ⟨a, List.mem_cons_self a l, rfl⟩
        · rcases ih hrec s hmem with ⟨d, hd, heq⟩ | hin
          · exact Or.inl ⟨d, List.mem_cons_of_mem a hd, heq⟩
          · right
            simp only [List.map_append, List.mem_append]
            exact Or.inr hin

/-- C9: after sub-operator resolution of the records retrieved from the
feed, every record's `OperatorId` is either the id of a top-level
operator mapped from the feed (persisted by the operator phase) or the
id of one of the sub-operator rows emitted by the resolution step
itself. -/
theorem C9_station_operator_fk (operatorData : List IOperatorEvseData)
    (subs : List IOperator) (res : List IEvseDataRecord)
    (h : processPossibleSubOperatorsFromEvseData
      (retrieveEvseDataFromOperatorData operatorData) = some (subs, res)) :
    ∀ s ∈ res,
      s.OperatorId ∈ (mapOperatorDataToOperators operatorData).map IOperator.id ∨
        s.OperatorId ∈ subs.map IOperator.id := by
  intro s hs
  rcases processSubOps_operatorId h s hs with ⟨d, hd, heq⟩ | hin
  · left
    simp only [retrieveEvseDataFromOperatorData, getArrayByValue_Array, List.mem_flatMap,
      List.mem_map] at hd
    obtain ⟨od, hod, d0, hd0, hdd⟩ := hd
    simp only [mapOperatorDataToOperators, List.map_map, List.mem_map]
    refine ⟨od, hod, ?_⟩
    rw [heq, ← hdd]
    rfl
  · exact Or.inr hin

theorem C9_station_operator_fk_witness :
    ({ stationTBB with OperatorId := "DE*TBB" } : IEvseDataRecord).OperatorId ∈
        (mapOperatorDataToOperators [operatorBlockTBA]).map IOperator.id ∨
      ({ stationTBB with OperatorId := "DE*TBB" } : IEvseDataRecord).OperatorId ∈
        ([{ id := "DE*TBB", name := none, parentId := some "DE*TBA" }] :
          List IOperator).map IOperator.id :=
  C9_station_operator_fk [operatorBlockTBA]
    [{ id := "DE*TBB", name := none, parentId := some "DE*TBA" }]
    [stationTBA, { stationTBB with OperatorId := "DE*TBB" }]
    (by decide) { stationTBB with OperatorId := "DE*TBB" } (by decide)

theorem stationTrRows_map_trKey (lookup : String → Except String String)
    (d : IEvseDataRecord) :
    ((stationTrRows lookup 0 d).1).map trKey =
      (stationCodes d).map
        (fun c => (d.EvseId, getLanguageCodeWithFallback lookup c)) := by
  rcases hinfo : d.EnAdditionalInfo with _ | info
  · simp [stationTrRows, stationCodes, hinfo]
  · by_cases hempty : info.isEmpty
    · simp [stationTrRows, stationCodes, hinfo, hempty]
    · simp only [stationTrRows, stationCodes, hinfo, hempty, Bool.false_eq_true, if_false]
      cases hg : (!testAnchorRegex EN_CHARGING_STATION_NAME_ALPHA_3 info &&
          truthyNonBlank d.EnChargingStationName) <;>
        cases hd : (!testAnchorRegex CHARGING_STATION_NAME_ALPHA_3 info &&
            truthyNonBlank d.ChargingStationName) <;>
        simp [scanCodes, List.map_append, List.map_map, trKey, getEvseTr, Function.comp]

theorem scanLoopF_mem_suffix {s : List Char} {fuel lastIndex : Nat}
    {m : String × List Char} (hm : m ∈ (scanLoopF s fuel lastIndex).1) :
    ∃ cs', cs' <:+ s ∧ matchLocAt cs' = some (m.1, m.2) := by
  induction fuel generalizing lastIndex with
  | zero => simp [scanLoopF] at hm
  | succ fuel ih =>
    rcases hex : execLocalized s lastIndex with ⟨_ | m', li⟩
    · simp [scanLoopF, hex] at hm
    · simp only [scanLoopF, hex, List.mem_cons] at hm
      rcases hm with rfl | hm
      · rcases hf : findMatch (s.drop lastIndex) with _ | ⟨code, t, n⟩ <;>
          simp only [execLocalized, hf, Prod.mk.injEq] at hex
        · simp at hex
        · obtain ⟨he, -⟩ := hex
          obtain ⟨-, -, cs', hsuf, hmat⟩ := findMatch_inv hf
          refine ⟨cs', hsuf.trans (List.drop_suffix lastIndex s), ?_⟩
          rw [hmat, ← he]
      · exact ih hm

theorem testPatternAt_suffix_searchTest {pat cs' cs : List Char} (hsuf : cs' <:+ cs)
    (h : testPatternAt pat cs' = true) : searchTest pat cs = true := by
  induction cs with
  | nil =>
    obtain rfl := List.suffix_nil.mp hsuf
    simpa [searchTest] using h
  | cons c cs ih =>
    rcases List.suffix_cons_iff.mp hsuf with rfl | hsuf'
    · simp [searchTest, h]
    · simp [searchTest, ih hsuf']

theorem matchLocAt_testPatternAt {cs : List Char} {code : String} {t : List Char}
    (h : matchLocAt cs = some (code, t)) :
    testPatternAt (code.data ++ [':']) cs = true := by
  obtain ⟨c1, c2, c3, rest, r, rfl, -, -, -, hcode, hlc⟩ := matchLocAt_inv h
  subst hcode
  have hbars := lazyCapture_dotsThenBars hlc
  simp only [testPatternAt, Bool.and_eq_true]
  constructor
  · rw [List.isPrefixOf_iff_prefix]
    exact ⟨rest, rfl⟩
  · simpa using hbars

theorem mem_scanCodes_testAnchor {s code : String} (h : code ∈ scanCodes s) :
    testAnchorRegex code s = true := by
  simp only [scanCodes, execLoopScan, List.mem_map] at h
  obtain ⟨m, hm, rfl⟩ := h
  obtain ⟨cs', hsuf, hmat⟩ := scanLoopF_mem_suffix hm
  exact testPatternAt_suffix_searchTest hsuf (matchLocAt_testPatternAt hmat)

theorem stationCodes_nodup {d : IEvseDataRecord}
    (hscan : ∀ info, d.EnAdditionalInfo = some info → (scanCodes info).Nodup) :
    (stationCodes d).Nodup := by
  rcases hinfo : d.EnAdditionalInfo with _ | info
  · simp [stationCodes, hinfo]
  · by_cases hempty : info.isEmpty
    · simp [stationCodes, hinfo, hempty]
    · have hsc := hscan info hinfo
      have hgbrNot : testAnchorRegex EN_CHARGING_STATION_NAME_ALPHA_3 info = false →
          EN_CHARGING_STATION_NAME_ALPHA_3 ∉ scanCodes info := by
        intro hfalse hmem
        rw [mem_scanCodes_testAnchor hmem] at hfalse
        cases hfalse
      have hdeuNot : testAnchorRegex CHARGING_STATION_NAME_ALPHA_3 info = false →
          CHARGING_STATION_NAME_ALPHA_3 ∉ scanCodes info := by
        intro hfalse hmem
        rw [mem_scanCodes_testAnchor hmem] at hfalse
        cases hfalse
      simp only [stationCodes, hinfo, hempty, Bool.false_eq_true, if_false]
      cases hg : (!testAnchorRegex EN_CHARGING_STATION_NAME_ALPHA_3 info &&
          truthyNonBlank d.EnChargingStationName) <;>
        cases hd : (!testAnchorRegex CHARGING_STATION_NAME_ALPHA_3 info &&
            truthyNonBlank d.ChargingStationName)
      · simp [hsc]
      · simp only [Bool.and_eq_true, Bool.not_eq_true'] at hd
        simp [List.nodup_append, hsc, hdeuNot hd.1]
      · simp only [Bool.and_eq_true, Bool.not_eq_true'] at hg
        simp [List.nodup_append, hsc, hgbrNot hg.1]
      · simp only [Bool.and_eq_true, Bool.not_eq_true'] at hg hd
        simp [List.nodup_append, hsc, EN_CHARGING_STATION_NAME_ALPHA_3,
          CHARGING_STATION_NAME_ALPHA_3]
        exact ⟨hgbrNot hg.1, hdeuNot hd.1⟩

theorem C6_counterexample :
    ((getInternationalData constErrLookup [c6Station]).map trKey) =
        [("E1", "FRA"), ("E1", "FRA")] ∧
      ¬ ((getInternationalData constErrLookup [c6Station]).map trKey).Nodup := by
  decide

/-- C6 (amended): the emitted translation rows are unique per
(stationId, languageCode) provided the station ids are pairwise
distinct, no packed field scans to two segments with the same country
code, and the country-to-language resolution (with its fallback) is
injective; without those hypotheses duplicate keys do occur. -/
theorem C6_translation_key_unique (lookup : String → Except String String)
    (evseData : List IEvseDataRecord)
    (hids : (evseData.map IEvseDataRecord.EvseId).Nodup)
    (hinj : Function.Injective (getLanguageCodeWithFallback lookup))
    (hscan : ∀ d ∈ evseData, ∀ info, d.EnAdditionalInfo = some info →
      (scanCodes info).Nodup) :
    ((getInternationalData lookup evseData).map trKey).Nodup := by
  rw [getInternationalData, getInternationalDataAux_zero]
  rw [List.map_flatMap, List.nodup_flatMap]
  constructor
  · intro d hd
    rw [stationTrRows_map_trKey]
    refine (stationCodes_nodup (hscan d hd)).map ?_
    intro a b hab
    exact hinj (congrArg Prod.snd hab)
  · have hpp : evseData.Pairwise (fun d1 d2 => d1.EvseId ≠ d2.EvseId) :=
      List.pairwise_map.mp hids
    refine hpp.imp ?_
    intro d1 d2 hne k hk1 hk2
    simp only [stationTrRows_map_trKey] at hk1 hk2
    simp only [List.mem_map] at hk1 hk2
    obtain ⟨c1, -, hkey1⟩ := hk1
    obtain ⟨c2, -, hkey2⟩ := hk2
    rw [← hkey1] at hkey2
    exact hne (congrArg Prod.fst hkey2).symm

theorem C6_translation_key_unique_witness :
    ((getInternationalData constErrLookup
        [{ EvseId := "E1", OperatorId := "OP", ChargingStationName := some "StationName-DE",
           EnChargingStationName := some "StationName-EN",
           EnAdditionalInfo := some "DEU:Inhalt|||GBR:Content|||FRA:Objet|||",
           AdditionalInfo := none }]).map trKey).Nodup :=
  C6_translation_key_unique constErrLookup _ (by decide) (fun a b hab => hab)
    (by
      intro d hd info hinfo
      rw [List.mem_singleton] at hd
      subst hd
      simp only [Option.some.injEq] at hinfo
      subst hinfo
      decide)
